import Mathlib

/-!
Verification development for the rhythm-game source file `src/main.ts`.

The TypeScript source is shallowly embedded: pure functions become Lean
functions, the reactive-stream pipeline becomes explicit list processing
over virtual time (rational milliseconds since game start), and JS values
that may be NaN (results of `parseFloat`/`parseInt` on malformed text)
become `Option` values, with `none` standing for NaN.
-/


set_option maxRecDepth 2000

namespace GuitarHero

/-! ## Deterministic noise source (`lcg`, main.ts lines 66-71)

The source closure mutates `seed` on each call:
`seed = (seed * 67890 + 34086315) % 12345; return seed / 12345`.
We embed the seed transition, the seed after `n` steps, the `n`-th output
(0-indexed: the first call returns `lcgSeed s 1 / 12345`), and a runner
that mirrors calling the closure `n` times in sequence. -/

def lcgStep (seed : ℕ) : ℕ := (seed * 67890 + 34086315) % 12345

def lcgSeed (seed : ℕ) : ℕ → ℕ
  | 0 => seed
  | n + 1 => lcgStep (lcgSeed seed n)

def lcgOutput (seed : ℕ) (n : ℕ) : ℚ := (lcgSeed seed (n + 1) : ℚ) / 12345

/-- Calling the closure `n` times: list of outputs together with the final
internal seed, exactly as the mutable closure would produce them. -/
def lcgRun (seed : ℕ) : ℕ → List ℚ × ℕ
  | 0 => ([], seed)
  | n + 1 =>
    let s := lcgStep seed
    let r := lcgRun s n
    ((s : ℚ) / 12345 :: r.1, r.2)

/-! ## Column, colour and key maps (main.ts lines 153-177 and 224-237) -/

/-- `assignColumnByPitch` (main.ts 153-156): `pitch % 4`. -/
def assignColumnByPitch (pitch : ℕ) : ℕ := pitch % 4

/-- `getColourByColumn` (main.ts 164-177). -/
def getColourByColumn (column : ℕ) : String :=
  match column with
  | 0 => "green"
  | 1 => "red"
  | 2 => "blue"
  | 3 => "yellow"
  | _ => "black"

/-- `getColumnIndexFromKeyCode` (main.ts 224-237): four recognized codes map
to columns 0-3, anything else to `-1`. -/
def getColumnIndexFromKeyCode (keyCode : String) : ℤ :=
  match keyCode with
  | "KeyH" => 0
  | "KeyJ" => 1
  | "KeyK" => 2
  | "KeyL" => 3
  | _ => -1

/-! ## CSV parsing (`parseCSV`, main.ts lines 94-135)

JS string primitives (`split`, `trim`, `parseFloat`, `parseInt`) are
modelled over the character list of a Lean `String`.  `parseFloat`/
`parseInt` return NaN on non-numeric text; we model NaN as `none`.  The
numeric parsers below accept complete (optionally signed) decimal
literals, which covers every field form the dataset format of the spec
uses; for such fields they agree with the JS builtins, and any other
field text maps to `none` exactly where JS yields NaN. -/

def splitOnChar (c : Char) : List Char → List (List Char)
  | [] => [[]]
  | x :: xs =>
    let r := splitOnChar c xs
    if x = c then [] :: r
    else
      match r with
      | [] => [[x]]
      | y :: ys => (x :: y) :: ys

/-- Model of JS `String.prototype.split` with a one-character separator. -/
def splitStr (c : Char) (s : String) : List String :=
  (splitOnChar c s.data).map (fun l => String.mk l)

/-- Model of JS `String.prototype.trim`. -/
def trimStr (s : String) : String :=
  String.mk (((s.data.dropWhile Char.isWhitespace).reverse.dropWhile
    Char.isWhitespace).reverse)

def natOfDigits (cs : List Char) : ℕ :=
  cs.foldl (fun a c => a * 10 + (c.toNat - 48)) 0

/-- Model of JS `parseFloat` on complete decimal literals (`none` = NaN). -/
def parseFloatQ (s : String) : Option ℚ :=
  let p :=
    match s.data with
    | '-' :: t => ((-1 : ℚ), t)
    | '+' :: t => ((1 : ℚ), t)
    | t => ((1 : ℚ), t)
  let body := p.2
  let ip := body.takeWhile (fun c => c != '.')
  let rest := body.drop ip.length
  if !(ip.all Char.isDigit) then none
  else
    match rest with
    | [] =>
      if ip.isEmpty then none
      else some (p.1 * (natOfDigits ip : ℚ))
    | '.' :: fp =>
      if !(fp.all Char.isDigit) then none
      else if ip.isEmpty && fp.isEmpty then none
      else some (p.1 * ((natOfDigits ip : ℚ) + (natOfDigits fp : ℚ) / (10 ^ fp.length)))
    | _ => none

/-- Model of JS `parseInt` (base 10, `none` = NaN). -/
def parseIntZ (s : String) : Option ℤ :=
  let p :=
    match s.data with
    | '-' :: t => ((-1 : ℤ), t)
    | '+' :: t => ((1 : ℤ), t)
    | t => ((1 : ℤ), t)
  let ds := p.2.takeWhile Char.isDigit
  if ds.isEmpty then none
  else some (p.1 * (natOfDigits ds : ℤ))

/-- `NoteSpec` (main.ts 76-83), with `Option` for the fields the parser can
turn into NaN. -/
structure NoteSpec where
  user_played : Bool
  instrument_name : String
  velocity : Option ℚ
  pitch : Option ℤ
  start : Option ℚ
  «end» : Option ℚ
deriving DecidableEq

/-- One line of the `.map` body of `parseCSV` (main.ts 106-123):
destructure the six comma-separated fields, compare `user_played` against
the exact text `True`, trim the instrument name, and parse the numeric
fields (`velocity` additionally divided by 127). -/
def parseLine (line : String) : NoteSpec :=
  let fields := splitStr ',' line
  { user_played := fields.getD 0 "" == "True",
    instrument_name := trimStr (fields.getD 1 ""),
    velocity := (parseFloatQ (fields.getD 2 "")).map (fun v => v / 127),
    pitch := parseIntZ (fields.getD 3 ""),
    start := parseFloatQ (fields.getD 4 ""),
    «end» := parseFloatQ (fields.getD 5 "") }

/-- `parseCSV` (main.ts 94-135): split into lines, skip the header, drop
blank lines, parse each remaining line.  Every parsed record is returned;
the function has no error channel.  (The source also collects referenced
instrument names and logs a console warning for the ones missing from the
sample map; that logging has no effect on the returned notes and is not
modelled.) -/
def parseCSV (csv : String) : List NoteSpec :=
  (((splitStr '\n' csv).drop 1).filter (fun l => trimStr l != "")).map parseLine

/-! ## Notes with derived fields (`ExtendedNoteSpec`, main.ts 85-88, 351-359)

The gameplay claims concern well-formed notes (numeric fields present), so
`ENote` carries concrete rationals; `pitch` is a MIDI pitch number (ℕ).
Times are rational seconds (`start`, `end`) and rational milliseconds
elsewhere, all on the single virtual clock measured from game start. -/

structure ENote where
  user_played : Bool
  instrument_name : String
  velocity : ℚ
  pitch : ℕ
  start : ℚ
  «end» : ℚ
  timeToRelease : ℚ
  column : ℕ
deriving DecidableEq

/-- The extension step of main.ts 351-355: derive `timeToRelease`
(`start - TICK_RATE_MS / 1000` with `TICK_RATE_MS = 16`) and `column`. -/
def extendNote (user_played : Bool) (instrument_name : String) (velocity : ℚ)
    (pitch : ℕ) (startTime endTime : ℚ) : ENote :=
  { user_played := user_played,
    instrument_name := instrument_name,
    velocity := velocity,
    pitch := pitch,
    start := startTime,
    «end» := endTime,
    timeToRelease := startTime - 16 / 1000,
    column := assignColumnByPitch pitch }

/-- `extendedNotes.filter ((note) => note.user_played)` (main.ts 359). -/
def userPlayedNotes (notes : List ENote) : List ENote :=
  notes.filter (fun n => n.user_played)

/-- `extendedNotes.filter ((note) => !note.user_played)` (main.ts 358). -/
def backgroundNotes (notes : List ENote) : List ENote :=
  notes.filter (fun n => !n.user_played)

/-- Emission instant of a user-played note on `userNotes$` (main.ts
364-370): `timer(note.start * 1000 + 2000)`, in ms after game start. -/
def noteEmitTime (n : ENote) : ℚ := n.start * 1000 + 2000

/-! ## Game end (`gameEnd$`, main.ts 377-381)

`merge(userNotes$, backgroundNotes)`: the plain `backgroundNotes` array is
converted by `merge` into a stream that emits all its elements
synchronously at subscription (virtual time 0), while `userNotes$` emits
each user note at `noteEmitTime`.  `last()` waits for the merged stream to
complete and re-emits its final value, which happens at the largest
emission instant; `delay(2000)` then shifts the single game-end emission
by the settle delay.  On a merged stream that completes without emitting,
`last()` errors (rxjs `EmptyError`) and no game-end state is ever emitted;
we model that as `none`. -/

/-- Last element of a list under the key `f`, later elements winning ties:
the value `withLatestFrom`-style machinery retains after all emissions up
to a given instant (timers due at the same instant fire in subscription
order). -/
def foldMax {α : Type} (f : α → ℚ) : List α → Option α
  | [] => none
  | x :: xs =>
    match foldMax f xs with
    | none => some x
    | some m => if f m < f x then some x else some m

/-- All emission instants of `merge(userNotes$, backgroundNotes)`. -/
def mergedEmitTimes (notes : List ENote) : List ℚ :=
  (userPlayedNotes notes).map noteEmitTime ++ (backgroundNotes notes).map (fun _ => 0)

/-- Instant at which `gameEnd$` emits its single state, `none` when the
merged stream is empty and `last()` errors instead of emitting. -/
def gameEndTime (notes : List ENote) : Option ℚ :=
  (foldMax id (mergedEmitTimes notes)).map (fun t => t + 2000)

/-! ## User input (`keyPresses$`, main.ts 391-400)

A raw key press carries its code and its timestamp
`Date.now() - gameStartTime` (ms).  `debounceTime(50)` drops a press when
the next one follows within less than 50 ms and emits a surviving press
50 ms after its timestamp; `takeUntil(gameEnd$)` cancels the stream at the
game-end instant, so only presses whose (debounced) emission is strictly
before it get through. -/

structure KeyPress where
  code : String
  time : ℚ
deriving DecidableEq

/-- `debounceTime(50)` on time-ordered raw presses. -/
def debounce50 : List KeyPress → List KeyPress
  | [] => []
  | [p] => [p]
  | p :: q :: rest =>
    if q.time - p.time < 50 then debounce50 (q :: rest)
    else p :: debounce50 (q :: rest)

/-- Emission instant of a debounced press. -/
def pressEmitTime (p : KeyPress) : ℚ := p.time + 50

/-- The `takeUntil(gameEnd$)` gate. -/
def beforeGameEnd (notes : List ENote) (p : KeyPress) : Bool :=
  match gameEndTime notes with
  | none => true
  | some g => decide (pressEmitTime p < g)

/-- The `keyPresses$` pipeline: debounce, then cancel at game end. -/
def keyPresses (notes : List ENote) (raw : List KeyPress) : List KeyPress :=
  (debounce50 raw).filter (beforeGameEnd notes)

/-! ## Matching and verdicts (`combined$`, main.ts 407-431) -/

/-- The note `withLatestFrom(userNotes$)` supplies at instant `e`: the
latest user-played note already emitted (largest `noteEmitTime ≤ e`, the
later-listed note on ties), or `none` when no user note has emitted yet,
in which case `withLatestFrom` produces nothing for that press. -/
def latestNote (u : List ENote) (e : ℚ) : Option ENote :=
  foldMax noteEmitTime (u.filter (fun n => decide (noteEmitTime n ≤ e)))

structure Verdict where
  note : ENote
  isCorrectTiming : Bool
  isCorrectColumn : Bool
deriving DecidableEq

/-- The `map` body of `combined$` (main.ts 413-430):
`actualNoteStartTime = note.start * 1000 + 2000`, margin 150 ms,
`isCorrectTiming` a two-sided window test on the raw press timestamp,
`isCorrectColumn` comparing the mapped key column with the note column. -/
def mkVerdict (keyPress : KeyPress) (note : ENote) : Verdict :=
  { note := note,
    isCorrectTiming :=
      decide (note.start * 1000 + 2000 - 150 ≤ keyPress.time ∧
        keyPress.time ≤ note.start * 1000 + 2000 + 150),
    isCorrectColumn :=
      decide (getColumnIndexFromKeyCode keyPress.code = (note.column : ℤ)) }

/-- A verdict together with the debounced press that produced it. -/
structure VerdictEvent where
  press : KeyPress
  verdict : Verdict
deriving DecidableEq

/-- The `combined$` stream: every surviving press that finds an
already-emitted user note yields exactly one verdict. -/
def verdictEvents (notes : List ENote) (raw : List KeyPress) : List VerdictEvent :=
  (keyPresses notes raw).filterMap (fun p =>
    (latestNote (userPlayedNotes notes) (pressEmitTime p)).map
      (fun n => ⟨p, mkVerdict p n⟩))

def verdicts (notes : List ENote) (raw : List KeyPress) : List Verdict :=
  (verdictEvents notes raw).map (fun ev => ev.verdict)

/-! ## Score (`score$`, main.ts 434-440) -/

def initialScore : ℕ := 0

/-- `isCorrectTiming && isCorrectColumn ? 1 : 0` (main.ts 435-437). -/
def isHit (v : Verdict) : Bool := v.isCorrectTiming && v.isCorrectColumn

def scoreValue (v : Verdict) : ℕ := if isHit v then 1 else 0

/-- rxjs `scan((acc, value) => acc + value, initialScore)`: one running
total per incoming value, the seed itself not emitted. -/
def scanAcc (acc : ℕ) : List ℕ → List ℕ
  | [] => []
  | x :: xs => (acc + x) :: scanAcc (acc + x) xs

/-- `score$` emissions: `startWith(initialScore)` prepends the initial 0
to the `scan` running totals. -/
def scoreStream (vs : List Verdict) : List ℕ :=
  initialScore :: scanAcc initialScore (vs.map scoreValue)

/-! ## Audio routing (`playRandomNote` main.ts 323-344 and the
`combined$` subscription main.ts 518-528) -/

structure Sound where
  instrument : String
  pitch : ℤ
  duration : ℚ
  velocity : ℚ
deriving DecidableEq

/-- `playRandomNote` (main.ts 323-344): three sequential draws from the
seeded noise source.  The first draw picks both the instrument index
(`floor(randomValue * availableInstruments.length)`) and the pitch
(`floor(randomValue * 88 + 21)`); the second the duration
`0.1 + rng() * 0.4`; the third the velocity `0.5 + rng() * 0.5`.  Returns
the sound together with the advanced seed.  (The source formats the
duration with `toFixed(2)` before handing it to the sampler; the model
keeps the exact rational.) -/
def playRandomNote (seed : ℕ) (instruments : List String) : Sound × ℕ :=
  let s1 := lcgStep seed
  let randomValue : ℚ := (s1 : ℚ) / 12345
  let randomIndex : ℕ := (⌊randomValue * instruments.length⌋).toNat
  let s2 := lcgStep s1
  let s3 := lcgStep s2
  ({ instrument := instruments.getD randomIndex (String.mk []),
     pitch := ⌊randomValue * 88 + 21⌋,
     duration := 1 / 10 + ((s2 : ℚ) / 12345) * (4 / 10),
     velocity := 1 / 2 + ((s3 : ℚ) / 12345) * (1 / 2) }, s3)

inductive AudioAction where
  | intendedNote : ENote → AudioAction
  | penalty : Sound → AudioAction
deriving DecidableEq

/-- The `combined$.subscribe` handler (main.ts 518-528): the fully correct
case plays the intended note (`playUserPlayedNote`); each of the three
other branches calls `playRandomNote`.  Returns the audio action and the
noise-source seed after the handler. -/
def handleVerdict (v : Verdict) (seed : ℕ) (instruments : List String) :
    AudioAction × ℕ :=
  if v.isCorrectTiming && v.isCorrectColumn then
    (AudioAction.intendedNote v.note, seed)
  else if v.isCorrectTiming && !v.isCorrectColumn then
    let r := playRandomNote seed instruments
    (AudioAction.penalty r.1, r.2)
  else if v.isCorrectColumn && !v.isCorrectTiming then
    let r := playRandomNote seed instruments
    (AudioAction.penalty r.1, r.2)
  else
    let r := playRandomNote seed instruments
    (AudioAction.penalty r.1, r.2)

/-! ## Reference definition from the spec wording (for claim C1)

The spec's matching policy pairs each input event with the *next
unresolved* scheduled user-played note; the source instead pairs with the
most recently emitted one.  The definition below follows the spec's words
and is used only to compare the two policies. -/

/-- Modelled from the spec: "each InputEvent is paired with the next
unresolved scheduled user-played note".  Matched inputs consume the
user-played notes one at a time, so the k-th surviving input event is
paired with the k-th user-played note; the note list is taken here in
scheduled order (non-decreasing expected trigger instant). -/
def nextUnresolvedPairing (notes : List ENote) (raw : List KeyPress) : List ENote :=
  ((keyPresses notes raw).zip (userPlayedNotes notes)).map (fun q => q.2)

/-! ## Concrete instances used by witnesses and counterexamples -/

def piano : String := "piano"

/-- A single user-played note: pitch 0 (column 0), `start` 1 s, so its
expected trigger instant is 3000 ms. -/
def wNote : ENote := extendNote true piano (1 / 2) 0 1 (3 / 2)

def wPress : KeyPress := ⟨"KeyH", 3010⟩

def wRaw : List KeyPress := [wPress]

def wEvent : VerdictEvent := ⟨wPress, mkVerdict wPress wNote⟩

def wVerdict : Verdict := mkVerdict wPress wNote

/-- Two user-played notes in scheduled order: expected instants 2000 ms
(pitch 0, column 0) and 2100 ms (pitch 1, column 1). -/
def cexNote1 : ENote := extendNote true piano (1 / 2) 0 0 (1 / 2)

def cexNote2 : ENote := extendNote true piano (1 / 2) 1 (1 / 10) (1 / 2)

/-- One key press at 2100 ms: its debounced emission at 2150 ms falls after
both notes above have emitted. -/
def cexRaw : List KeyPress := [⟨"KeyH", 2100⟩]

/-- A key press whose code is none of the four recognized column keys. -/
def c5Press : KeyPress := ⟨"KeyA", 3010⟩

def c5Raw : List KeyPress := [c5Press]

def c5Event : VerdictEvent := ⟨c5Press, mkVerdict c5Press wNote⟩

/-- Two presses of the correct column, 70 ms apart (so both survive the
50 ms debounce), both inside the ±150 ms window of `wNote`. -/
def c10Raw : List KeyPress := [wPress, ⟨"KeyH", 3080⟩]

/-- A dataset whose second line has a non-numeric `start` field; the third
line is fully valid. -/
def badCsv : String :=
  "user_played,instrument_name,velocity,pitch,start,end\nTrue,piano,64,60,oops,1.5\nFalse,piano,64,61,1,2"

/-- A dataset with a header and zero note records. -/
def headerOnly : String := "user_played,instrument_name,velocity,pitch,start,end"

/-! ## Helper lemmas -/

theorem foldMax_eq_none {α : Type} (f : α → ℚ) (l : List α)
    (h : foldMax f l = none) : l = [] := by
  cases l with
  | nil => rfl
  | cons x xs =>
    simp only [foldMax] at h
    cases hx : foldMax f xs with
    | none => rw [hx] at h; simp at h
    | some m => rw [hx] at h; by_cases hc : f m < f x <;> simp [hc] at h

theorem foldMax_mem {α : Type} (f : α → ℚ) (l : List α) (n : α)
    (h : foldMax f l = some n) : n ∈ l := by
  induction l generalizing n with
  | nil => simp [foldMax] at h
  | cons x xs ih =>
    simp only [foldMax] at h
    cases hx : foldMax f xs with
    | none =>
      rw [hx] at h
      simp at h
      subst h
      exact List.mem_cons_self x xs
    | some m =>
      rw [hx] at h
      by_cases hc : f m < f x
      · simp [hc] at h
        subst h
        exact List.mem_cons_self x xs
      · simp [hc] at h
        subst h
        exact List.mem_cons_of_mem x (ih m hx)

theorem foldMax_le {α : Type} (f : α → ℚ) (l : List α) (n : α)
    (h : foldMax f l = some n) : ∀ m ∈ l, f m ≤ f n := by
  induction l generalizing n with
  | nil => simp [foldMax] at h
  | cons x xs ih =>
    intro m hm
    rw [List.mem_cons] at hm
    simp only [foldMax] at h
    cases hx : foldMax f xs with
    | none =>
      rw [hx] at h
      simp at h
      subst h
      have hxs : xs = [] := foldMax_eq_none f xs hx
      subst hxs
      rcases hm with rfl | hm
      · exact le_refl _
      · simp at hm
    | some mx =>
      rw [hx] at h
      by_cases hc : f mx < f x
      · simp [hc] at h
        subst h
        rcases hm with rfl | hm
        · exact le_refl _
        · exact le_trans (ih mx hx m hm) (le_of_lt hc)
      · simp [hc] at h
        subst h
        rcases hm with rfl | hm
        · exact not_lt.mp hc
        · exact ih mx hx m hm

theorem scanAcc_length (xs : List ℕ) : ∀ acc : ℕ, (scanAcc acc xs).length = xs.length := by
  induction xs with
  | nil =>
    intro acc
    rfl
  | cons x xs ih =>
    intro acc
    simp [scanAcc, ih]

theorem scanAcc_getElem (xs : List ℕ) : ∀ (acc n : ℕ), n < xs.length →
    (scanAcc acc xs)[n]? = some (acc + (xs.take (n + 1)).sum) := by
  induction xs with
  | nil =>
    intro acc n h
    simp at h
  | cons x xs ih =>
    intro acc n h
    cases n with
    | zero => simp [scanAcc]
    | succ k =>
      have hk : k < xs.length := by simpa using h
      simp only [scanAcc]
      rw [List.getElem?_cons_succ, ih (acc + x) k hk, List.take_succ_cons, List.sum_cons,
        Nat.add_assoc]

theorem scanAcc_chain (xs : List ℕ) : ∀ acc : ℕ,
    List.Chain' (fun a b => a ≤ b) (acc :: scanAcc acc xs) := by
  induction xs with
  | nil =>
    intro acc
    simp [scanAcc]
  | cons x xs ih =>
    intro acc
    simp only [scanAcc]
    exact List.Chain'.cons (Nat.le_add_right acc x) (ih (acc + x))

theorem scanAcc_getLast (xs : List ℕ) : ∀ acc : ℕ,
    (acc :: scanAcc acc xs).getLast? = some (acc + xs.sum) := by
  induction xs with
  | nil =>
    intro acc
    simp [scanAcc]
  | cons x xs ih =>
    intro acc
    simp only [scanAcc]
    rw [List.getLast?_cons_cons, ih (acc + x), List.sum_cons, Nat.add_assoc]

theorem sum_map_scoreValue (vs : List Verdict) :
    (vs.map scoreValue).sum = vs.countP isHit := by
  induction vs with
  | nil => rfl
  | cons v vs ih =>
    by_cases h : isHit v <;>
      simp [scoreValue, h, List.countP_cons, ih, Nat.add_comm]

/-- Every element of `combined$` is a surviving debounced press paired by
`withLatestFrom` with some already-emitted user-played note, its verdict
computed by the `map` body. -/
theorem verdictEvents_shape (notes : List ENote) (raw : List KeyPress)
    (ev : VerdictEvent) (hev : ev ∈ verdictEvents notes raw) :
    ev.press ∈ keyPresses notes raw ∧
    latestNote (userPlayedNotes notes) (pressEmitTime ev.press) = some ev.verdict.note ∧
    ev.verdict = mkVerdict ev.press ev.verdict.note := by
  rcases List.mem_filterMap.mp hev with ⟨p, hp, hmap⟩
  rcases Option.map_eq_some'.mp hmap with ⟨n, hn, he⟩
  subst he
  exact ⟨hp, hn, rfl⟩

theorem mkVerdict_timing_iff (p : KeyPress) (n : ENote) :
    (mkVerdict p n).isCorrectTiming = true ↔
      |p.time - (n.start * 1000 + 2000)| ≤ 150 := by
  simp only [mkVerdict, decide_eq_true_eq, abs_sub_le_iff]
  constructor
  · rintro ⟨h1, h2⟩
    constructor <;> linarith
  · rintro ⟨h1, h2⟩
    constructor <;> linarith

theorem mkVerdict_column_iff (p : KeyPress) (n : ENote) :
    (mkVerdict p n).isCorrectColumn = true ↔
      getColumnIndexFromKeyCode p.code = (n.column : ℤ) := by
  simp [mkVerdict]

/-! ## Claim theorems -/

/-- Claim C1, counterexample to the pairing policy as stated.  With two
user-played notes (expected instants 2000 ms and 2100 ms) and a single
matched key press, the next unresolved scheduled user-played note is the
first note, but the code pairs the press with the second (most recently
emitted) note, a different note. -/
theorem pairing_next_unresolved_counterexample :
    nextUnresolvedPairing [cexNote1, cexNote2] cexRaw = [cexNote1] ∧
    (verdicts [cexNote1, cexNote2] cexRaw).map (fun v => v.note) = [cexNote2] ∧
    cexNote1 ≠ cexNote2 := by
  with_unfolding_all decide

/-- Claim C1 (amended): every matched key-press event is paired with the
most recently emitted scheduled user-played note (largest expected trigger
instant `start * 1000 + 2000` not exceeding the press's debounced
emission instant), and the verdict is computed as
`timingOk = (|keyTime - expected| ≤ 150)` and
`columnOk = (mapped column = note.column)`. -/
theorem verdict_pairs_latest_emitted_note (notes : List ENote) (raw : List KeyPress)
    (ev : VerdictEvent) (hev : ev ∈ verdictEvents notes raw) :
    ev.verdict.note ∈ userPlayedNotes notes ∧
    noteEmitTime ev.verdict.note ≤ pressEmitTime ev.press ∧
    (∀ m ∈ userPlayedNotes notes, noteEmitTime m ≤ pressEmitTime ev.press →
      noteEmitTime m ≤ noteEmitTime ev.verdict.note) ∧
    (ev.verdict.isCorrectTiming = true ↔
      |ev.press.time - (ev.verdict.note.start * 1000 + 2000)| ≤ 150) ∧
    (ev.verdict.isCorrectColumn = true ↔
      getColumnIndexFromKeyCode ev.press.code = (ev.verdict.note.column : ℤ)) := by
  obtain ⟨hp, hn, hv⟩ := verdictEvents_shape notes raw ev hev
  rw [latestNote] at hn
  have hfil := foldMax_mem _ _ _ hn
  rw [List.mem_filter] at hfil
  have hub : ∀ m ∈ userPlayedNotes notes, noteEmitTime m ≤ pressEmitTime ev.press →
      noteEmitTime m ≤ noteEmitTime ev.verdict.note := by
    intro m hm hle
    exact foldMax_le _ _ _ hn m (List.mem_filter.mpr ⟨hm, decide_eq_true hle⟩)
  have ht := mkVerdict_timing_iff ev.press ev.verdict.note
  have hc := mkVerdict_column_iff ev.press ev.verdict.note
  rw [← hv] at ht hc
  exact ⟨hfil.1, of_decide_eq_true hfil.2, hub, ht, hc⟩

/-- Witness for the amended claim C1 at a concrete input: the single
verdict event of `wRaw` against `wNote`. -/
theorem verdict_pairs_latest_emitted_note_witness :
    wEvent ∈ verdictEvents [wNote] wRaw ∧
    noteEmitTime wEvent.verdict.note ≤ pressEmitTime wEvent.press := by
  have hEq : verdictEvents [wNote] wRaw = [wEvent] := by
    norm_num [verdictEvents, keyPresses, debounce50, beforeGameEnd, gameEndTime,
      mergedEmitTimes, userPlayedNotes, backgroundNotes, foldMax, noteEmitTime,
      pressEmitTime, latestNote, mkVerdict, wEvent, wNote, wPress, wRaw, extendNote,
      List.filter, List.filterMap, assignColumnByPitch, getColumnIndexFromKeyCode]
  have hmem : wEvent ∈ verdictEvents [wNote] wRaw := by
    rw [hEq]
    exact List.mem_singleton.mpr rfl
  exact ⟨hmem, (verdict_pairs_latest_emitted_note [wNote] wRaw wEvent hmem).2.1⟩

/-- Claim C2: the fully correct verdict, and only it, plays the intended
note; each of the other three timing/column combinations plays the note
drawn from the seeded noise source by `playRandomNote`; the intended note
is never played for a non-fully-correct verdict. -/
theorem verdict_outcome_exclusive (v : Verdict) (seed : ℕ) (instruments : List String) :
    ((handleVerdict v seed instruments).1 = AudioAction.intendedNote v.note ↔
      (v.isCorrectTiming = true ∧ v.isCorrectColumn = true)) ∧
    ((handleVerdict v seed instruments).1 =
        AudioAction.penalty (playRandomNote seed instruments).1 ↔
      ¬ (v.isCorrectTiming = true ∧ v.isCorrectColumn = true)) ∧
    (∀ n : ENote, ¬ (v.isCorrectTiming = true ∧ v.isCorrectColumn = true) →
      (handleVerdict v seed instruments).1 ≠ AudioAction.intendedNote n) := by
  obtain ⟨note, t, c⟩ := v
  cases t <;> cases c <;> simp [handleVerdict]

/-- Witness for claim C2: a fully correct concrete verdict plays its own
note. -/
theorem verdict_outcome_exclusive_witness :
    (handleVerdict wVerdict 7 [piano]).1 = AudioAction.intendedNote wVerdict.note :=
  ((verdict_outcome_exclusive wVerdict 7 [piano]).1).mpr
    (by with_unfolding_all decide)

/-- Claim C3: `score$` is the left fold of the verdict stream with the
initial value 0 emitted first (before any verdict); after `n` verdicts the
emitted score is exactly the number of fully correct verdicts among the
first `n`; the emitted sequence is monotonically non-decreasing, and its
final value counts exactly the fully correct verdicts. -/
theorem score_left_fold (vs : List Verdict) :
    (scoreStream vs).head? = some 0 ∧
    (scoreStream vs).length = vs.length + 1 ∧
    (∀ n : ℕ, n ≤ vs.length →
      (scoreStream vs)[n]? = some ((vs.take n).countP isHit)) ∧
    List.Chain' (fun a b => a ≤ b) (scoreStream vs) ∧
    (scoreStream vs).getLast? = some (vs.countP isHit) := by
  refine ⟨rfl, ?_, ?_, ?_, ?_⟩
  · simp [scoreStream, scanAcc_length]
  · intro n hn
    cases n with
    | zero => simp [scoreStream, initialScore]
    | succ k =>
      have hk : k < (vs.map scoreValue).length := by simpa using hn
      simp only [scoreStream, initialScore]
      rw [List.getElem?_cons_succ, scanAcc_getElem _ _ _ hk, ← List.map_take,
        sum_map_scoreValue, Nat.zero_add]
  · exact scanAcc_chain (vs.map scoreValue) initialScore
  · simp only [scoreStream, initialScore]
    rw [scanAcc_getLast (vs.map scoreValue) 0, sum_map_scoreValue, Nat.zero_add]

/-- Witness for claim C3 at a concrete verdict stream: after the first of
the two verdicts of the `c10Raw` run the score is the number of fully
correct verdicts among the first one. -/
theorem score_left_fold_witness :
    1 ≤ (verdicts [wNote] c10Raw).length ∧
    (scoreStream (verdicts [wNote] c10Raw))[1]? =
      some (((verdicts [wNote] c10Raw).take 1).countP isHit) :=
  ⟨by with_unfolding_all decide,
   (score_left_fold (verdicts [wNote] c10Raw)).2.2.1 1
     (by with_unfolding_all decide)⟩

/-- Claim C4: when `gameEnd$` fires (instant `g`), it fires exactly once,
at the settle delay of 2000 ms after the last emission of the merged
user-note/background-note stream (so no earlier than 2000 ms after every
emission of that stream), and every surviving key press - hence every
verdict, hence every score update - has its debounced emission strictly
before `g` (`takeUntil(gameEnd$)` cancels the input stream). -/
theorem game_end_once_after_last (notes : List ENote) (raw : List KeyPress) (g : ℚ)
    (h : gameEndTime notes = some g) :
    (∃ t ∈ mergedEmitTimes notes, g = t + 2000) ∧
    (∀ t ∈ mergedEmitTimes notes, t + 2000 ≤ g) ∧
    (∀ g' : ℚ, gameEndTime notes = some g' → g' = g) ∧
    (∀ p ∈ keyPresses notes raw, pressEmitTime p < g) ∧
    (∀ ev ∈ verdictEvents notes raw, pressEmitTime ev.press < g) := by
  rcases Option.map_eq_some'.mp h with ⟨m, hm, hg⟩
  have hkey : ∀ p ∈ keyPresses notes raw, pressEmitTime p < g := by
    intro p hp
    have hb := (List.mem_filter.mp hp).2
    unfold beforeGameEnd at hb
    rw [h] at hb
    simpa using hb
  refine ⟨⟨m, foldMax_mem _ _ _ hm, hg.symm⟩, ?_, ?_, hkey, ?_⟩
  · intro t ht
    have hle := foldMax_le _ _ _ hm t ht
    simp only [id] at hle
    rw [← hg]
    linarith
  · intro g' h'
    rw [h] at h'
    exact (Option.some.inj h').symm
  · intro ev hev
    obtain ⟨hp, _, _⟩ := verdictEvents_shape notes raw ev hev
    exact hkey _ hp

/-- Witness for claim C4 at a concrete input: the one-note game ends at
5000 ms and the surviving press emits before that. -/
theorem game_end_once_after_last_witness :
    gameEndTime [wNote] = some 5000 ∧ pressEmitTime wPress < 5000 := by
  have hg : gameEndTime [wNote] = some 5000 := by
    norm_num [gameEndTime, mergedEmitTimes, userPlayedNotes, backgroundNotes, foldMax,
      noteEmitTime, wNote, extendNote, List.filter]
  have hkp : keyPresses [wNote] wRaw = [wPress] := by
    norm_num [keyPresses, debounce50, wRaw, beforeGameEnd, hg, pressEmitTime, wPress,
      List.filter]
  have hmem : wPress ∈ keyPresses [wNote] wRaw := by
    rw [hkp]
    exact List.mem_singleton.mpr rfl
  exact ⟨hg, (game_end_once_after_last [wNote] wRaw 5000 hg).2.2.2.1 wPress hmem⟩

/-- Claim C5, counterexample: a key press with the unrecognized code
`KeyA` is still matched against the latest user-played note - it produces
a verdict (with `columnOk = false`) and a penalty audio trigger, not a
no-op. -/
theorem unmapped_key_counterexample :
    getColumnIndexFromKeyCode c5Press.code = -1 ∧
    (verdictEvents [wNote] c5Raw).length = 1 ∧
    (verdicts [wNote] c5Raw).map (fun v => (handleVerdict v 7 [piano]).1) =
      [AudioAction.penalty (playRandomNote 7 [piano]).1] := by
  with_unfolding_all decide

/-- Claim C5 (amended): a key press whose code is not one of the four
recognized column keys maps to the sentinel column `-1`; it is still
matched against the most recently emitted user-played note, producing a
verdict whose `columnOk` is false, so it never changes the score, and it
triggers the penalty audio drawn from the noise source rather than no
audio. -/
theorem unmapped_key_verdict_penalty (notes : List ENote) (raw : List KeyPress)
    (ev : VerdictEvent) (hev : ev ∈ verdictEvents notes raw)
    (hcode : getColumnIndexFromKeyCode ev.press.code = -1)
    (seed : ℕ) (instruments : List String) :
    ev.verdict.isCorrectColumn = false ∧
    scoreValue ev.verdict = 0 ∧
    (handleVerdict ev.verdict seed instruments).1 =
      AudioAction.penalty (playRandomNote seed instruments).1 := by
  obtain ⟨-, -, hv⟩ := verdictEvents_shape notes raw ev hev
  have hcol : ev.verdict.isCorrectColumn = false := by
    rw [hv]
    simp only [mkVerdict, hcode, decide_eq_false_iff_not]
    intro hh
    omega
  refine ⟨hcol, ?_, ?_⟩
  · simp [scoreValue, isHit, hcol]
  · cases ht : ev.verdict.isCorrectTiming <;> simp [handleVerdict, hcol, ht]

/-- Witness for the amended claim C5 at the concrete `KeyA` press. -/
theorem unmapped_key_verdict_penalty_witness :
    c5Event ∈ verdictEvents [wNote] c5Raw ∧ scoreValue c5Event.verdict = 0 := by
  have hEq : verdictEvents [wNote] c5Raw = [c5Event] := by
    norm_num [verdictEvents, keyPresses, debounce50, beforeGameEnd, gameEndTime,
      mergedEmitTimes, userPlayedNotes, backgroundNotes, foldMax, noteEmitTime,
      pressEmitTime, latestNote, mkVerdict, c5Event, wNote, c5Press, c5Raw, extendNote,
      List.filter, List.filterMap, assignColumnByPitch, getColumnIndexFromKeyCode]
  have hmem : c5Event ∈ verdictEvents [wNote] c5Raw := by
    rw [hEq]
    exact List.mem_singleton.mpr rfl
  exact ⟨hmem,
    (unmapped_key_verdict_penalty [wNote] c5Raw c5Event hmem (by decide) 7 [piano]).2.1⟩

/-- Claim C6 (code-bug evidence): on a dataset whose second line has the
non-numeric `start` field `oops`, `parseCSV` reports no error and returns
that record - with `start = none`, the model of NaN - in the note set,
alongside the correctly parsed valid line.  The claim (and spec sections 7
and 8) require a `ParseError` naming the line and exclusion of the record
instead. -/
theorem nan_start_not_excluded :
    (parseCSV badCsv).length = 2 ∧
    (parseCSV badCsv).map (fun n => (n.user_played, n.start, n.pitch)) =
      [(true, none, some 60), (false, some 1, some 61)] := by
  with_unfolding_all decide

/-- Claim C7: column assignment is the pure function `pitch % 4`, its
value lies in `{0, 1, 2, 3}`, and two pitches congruent mod 4 receive the
same column and hence the same render colour. -/
theorem column_pure_function_of_pitch (p q : ℕ) :
    assignColumnByPitch p = p % 4 ∧
    assignColumnByPitch p < 4 ∧
    (p % 4 = q % 4 →
      assignColumnByPitch p = assignColumnByPitch q ∧
      getColourByColumn (assignColumnByPitch p) =
        getColourByColumn (assignColumnByPitch q)) := by
  refine ⟨rfl, Nat.mod_lt p (by norm_num), fun h => ⟨h, ?_⟩⟩
  show getColourByColumn (p % 4) = getColourByColumn (q % 4)
  rw [h]

/-- Witness for claim C7 at pitches 6 and 10 (both column 2). -/
theorem column_pure_function_of_pitch_witness :
    6 % 4 = 10 % 4 ∧ assignColumnByPitch 6 = assignColumnByPitch 10 :=
  ⟨by decide, ((column_pure_function_of_pitch 6 10).2.2 (by decide)).1⟩

/-- Claim C8: the noise source is reproducible - running the seeded
closure `n` times yields outputs that are a pure function of the initial
seed and the call index, so two runs from the same seed agree bit for
bit; the seed follows the linear-congruential recurrence with
`A = 67890`, `C = 34086315`, `M = 12345`; each output is `seed / M` for
the updated seed and lies in `[0, 1)`. -/
theorem lcg_reproducible_unit_interval (S n : ℕ) :
    (lcgRun S n).1 = (List.range n).map (fun k => lcgOutput S k) ∧
    lcgSeed S (n + 1) = (lcgSeed S n * 67890 + 34086315) % 12345 ∧
    lcgOutput S n = (lcgSeed S (n + 1) : ℚ) / 12345 ∧
    (∀ q ∈ (lcgRun S n).1, 0 ≤ q ∧ q < 1) := by
  have hshift : ∀ (s k : ℕ), lcgSeed s (k + 1) = lcgSeed (lcgStep s) k := by
    intro s k
    induction k with
    | zero => simp [lcgSeed]
    | succ j ih => rw [lcgSeed, ih, lcgSeed]
  have hrun : ∀ (k s : ℕ), (lcgRun s k).1 = (List.range k).map (fun j => lcgOutput s j) := by
    intro k
    induction k with
    | zero =>
      intro s
      simp [lcgRun]
    | succ j ih =>
      intro s
      rw [List.range_succ_eq_map, List.map_cons, List.map_map]
      simp only [lcgRun]
      rw [ih (lcgStep s)]
      have hhead : (lcgStep s : ℚ) / 12345 = lcgOutput s 0 := by
        simp [lcgOutput, lcgSeed]
      have htail : (List.range j).map (fun a => lcgOutput (lcgStep s) a) =
          (List.range j).map ((fun a => lcgOutput s a) ∘ Nat.succ) := by
        refine List.map_congr_left ?_
        intro a ha
        show lcgOutput (lcgStep s) a = lcgOutput s (a + 1)
        rw [lcgOutput, lcgOutput, hshift s (a + 1)]
      rw [hhead, htail]
  have hbound : ∀ (s k : ℕ), 0 ≤ lcgOutput s k ∧ lcgOutput s k < 1 := by
    intro s k
    constructor
    · apply div_nonneg (by positivity) (by norm_num)
    · rw [lcgOutput, div_lt_one (by norm_num)]
      have hlt : lcgSeed s (k + 1) < 12345 := by
        rw [lcgSeed, lcgStep]
        exact Nat.mod_lt _ (by norm_num)
      exact_mod_cast hlt
  refine ⟨hrun n S, rfl, rfl, ?_⟩
  intro q hq
  rw [hrun n S] at hq
  rcases List.mem_map.mp hq with ⟨k, -, rfl⟩
  exact hbound S k

/-- Witness for claim C8: the bound applied to the first output from seed
123. -/
theorem lcg_reproducible_unit_interval_witness :
    0 ≤ lcgOutput 123 0 ∧ lcgOutput 123 0 < 1 :=
  (lcg_reproducible_unit_interval 123 1).2.2.2 (lcgOutput 123 0)
    (by with_unfolding_all decide)

/-- Claim C9 (code-bug evidence): on a dataset with zero notes the merged
note stream of `gameEnd$` is empty, `last()` errors instead of emitting,
and the game-end state is never produced (`gameEndTime = none`), contrary
to the claimed `Ended` after pre-roll plus settle delay; the score does
remain 0 (the stream emits only its initial value). -/
theorem zero_notes_game_end_never_fires :
    parseCSV headerOnly = [] ∧
    gameEndTime [] = none ∧
    scoreStream [] = [0] := by
  with_unfolding_all decide

/-- Claim C10: a single user-played note can be scored more than once -
with `wNote` (expected instant 3000 ms) and two presses of the correct
column at 3010 ms and 3080 ms, both survive the 50 ms debounce, each is
paired with the same note with a fully correct verdict, and the final
score is 2 for that one note. -/
theorem same_note_scored_twice :
    userPlayedNotes [wNote] = [wNote] ∧
    (keyPresses [wNote] c10Raw).length = 2 ∧
    (verdicts [wNote] c10Raw).map (fun v => (v.note, isHit v)) =
      [(wNote, true), (wNote, true)] ∧
    (scoreStream (verdicts [wNote] c10Raw)).getLast? = some 2 := by
  with_unfolding_all decide

end GuitarHero
